import Mathlib

set_option maxRecDepth 8000

/-! Verification development for the pref-data pipeline script of the
rhythmoji-generator repository (the Node script that builds the
top_songs_us.json, top_artists_us.json, artists_catalog.json and
songs_catalog.json artifacts).  Strings are modelled through their logical
character lists; the JavaScript regex passes of splitArtistCredits are
compiled to explicit character-list scanners with JavaScript leftmost /
greedy semantics; network calls are passed in as parameters. -/

/-! ## Character-level helpers -/

/-- Characters matched by the JavaScript regex class whitespace escape, which is
also the set removed by String.prototype.trim. -/
def isWsChar (c : Char) : Bool :=
  c.toNat = 32 || c.toNat = 9 || c.toNat = 10 || c.toNat = 11 || c.toNat = 12 || c.toNat = 13 ||
  c.toNat = 0xa0 || c.toNat = 0x1680 || (0x2000 ≤ c.toNat && c.toNat ≤ 0x200a) ||
  c.toNat = 0x2028 || c.toNat = 0x2029 || c.toNat = 0x202f || c.toNat = 0x205f ||
  c.toNat = 0x3000 || c.toNat = 0xfeff

/-- ASCII lowercasing of a single character, as toLowerCase acts on the
ASCII range used by the pipeline. -/
def lcChar (c : Char) : Char :=
  if 65 ≤ c.toNat ∧ c.toNat ≤ 90 then Char.ofNat (c.toNat + 32) else c

/-- The two dash characters of the character class [-–] used to strip
leading/trailing dashes from credit tokens. -/
def isDashChar (c : Char) : Bool :=
  c.toNat = 45 || c.toNat = 0x2013

/-- Line terminators, which the regex dot does not match in JavaScript. -/
def isLineTermChar (c : Char) : Bool :=
  c.toNat = 10 || c.toNat = 13 || c.toNat = 0x2028 || c.toNat = 0x2029

/-- Drop leading whitespace (the left half of String.prototype.trim). -/
def trimLeftWs (l : List Char) : List Char := l.dropWhile isWsChar

/-- Drop trailing whitespace (the right half of String.prototype.trim). -/
def trimRightWs (l : List Char) : List Char := (l.reverse.dropWhile isWsChar).reverse

/-- String.prototype.trim on character lists. -/
def trimChars (l : List Char) : List Char := trimRightWs (trimLeftWs l)

/-- Global replacement of each maximal whitespace run by a single space:
the replace-all-whitespace-runs pass of normalizeArtistName.  The Boolean
argument records whether the previous character was inside a whitespace run. -/
def collapseWsAux : Bool → List Char → List Char
  | _, [] => []
  | prevWs, c :: rest =>
    if isWsChar c then
      if prevWs then collapseWsAux true rest else ' ' :: collapseWsAux true rest
    else c :: collapseWsAux false rest

/-- normalizeArtistName from the source: trim, then collapse internal
whitespace runs to single spaces. -/
def normalizeArtistName (s : String) : String :=
  String.mk (collapseWsAux false (trimChars s.data))

/-- String.prototype.toLowerCase restricted to the ASCII range. -/
def toLowerStr (s : String) : String := String.mk (s.data.map lcChar)

/-- The canonical artist id used for de-duplication at the artist-derivation
step of updateAppleTopSongs: normalizeArtistName followed by toLowerCase. -/
def canonicalId (s : String) : String := toLowerStr (normalizeArtistName s)

/-! ## JavaScript truthiness helpers -/

/-- JavaScript a-or-b on an optional string and a fallback: none and the empty
string are falsy. -/
def jsOrO (a b : Option String) : Option String :=
  match a with
  | some s => if s = "" then b else some s
  | none => b

/-- JavaScript a-or-b on two strings: the empty string is falsy. -/
def jsOrStr (a b : String) : String := if a = "" then b else a

/-- Truthiness of an optional string value. -/
def isTruthyO : Option String → Bool
  | some s => s ≠ ""
  | none => false

/-! ## splitArtistCredits: the regex passes compiled to scanners

Each matcher implements one regex of the source anchored at the current
position, returning the suffix after the match; a generic scanner applies it
globally, left to right, continuing after each match, which is exactly the
semantics of String.prototype.replace with a global regex whose matches are
never empty. -/

/-- Case-insensitive literal match (the pattern is given lowercased); returns
the rest of the input after the literal. -/
def matchCi : List Char → List Char → Option (List Char)
  | [], l => some l
  | _ :: _, [] => none
  | p :: ps, c :: cs => if lcChar c = p then matchCi ps cs else none

/-- Whether the input starts with a whitespace character. -/
def hasLeadWs : List Char → Bool
  | [] => false
  | c :: _ => isWsChar c

/-- Drop the maximal leading whitespace run (greedy whitespace-star). -/
def dropWsL (l : List Char) : List Char := l.dropWhile isWsChar

/-- Matcher for the separator regex: one-or-more whitespace, ampersand,
one-or-more whitespace. -/
def matchAmp (l : List Char) : Option (List Char) :=
  if hasLeadWs l then
    match dropWsL l with
    | '&' :: r => if hasLeadWs r then some (dropWsL r) else none
    | _ => none
  else none

/-- Matcher for the separator regex: whitespace-star, comma, whitespace-star. -/
def matchComma (l : List Char) : Option (List Char) :=
  match dropWsL l with
  | ',' :: r => some (dropWsL r)
  | _ => none

/-- Matcher for the case-insensitive separator regex: one-or-more whitespace,
the letter x, one-or-more whitespace. -/
def matchXSep (l : List Char) : Option (List Char) :=
  if hasLeadWs l then
    match dropWsL l with
    | c :: r =>
      if lcChar c = 'x' then (if hasLeadWs r then some (dropWsL r) else none) else none
    | [] => none
  else none

/-- Matcher for the case-sensitive separator regex: one-or-more whitespace,
capital X, one-or-more whitespace (a second redundant pass in the source). -/
def matchXUpper (l : List Char) : Option (List Char) :=
  if hasLeadWs l then
    match dropWsL l with
    | 'X' :: r => if hasLeadWs r then some (dropWsL r) else none
    | _ => none
  else none

/-- Matcher for a case-insensitive word separator surrounded by one-or-more
whitespace on each side (used for the words with and and). -/
def matchWordSep (w : List Char) (l : List Char) : Option (List Char) :=
  if hasLeadWs l then
    match matchCi w (dropWsL l) with
    | some r => if hasLeadWs r then some (dropWsL r) else none
    | none => none
  else none

/-- Matcher for the case-insensitive separator regex: whitespace-star, the
word feat, an optional dot, whitespace-star. -/
def matchFeatSep (l : List Char) : Option (List Char) :=
  match matchCi ['f', 'e', 'a', 't'] (dropWsL l) with
  | some r =>
    match r with
    | '.' :: r2 => some (dropWsL r2)
    | _ => some (dropWsL r)
  | none => none

/-- Matcher for the case-insensitive separator regex: whitespace-star, the
word featuring, whitespace-star. -/
def matchFeaturing (l : List Char) : Option (List Char) :=
  match matchCi ['f', 'e', 'a', 't', 'u', 'r', 'i', 'n', 'g'] (dropWsL l) with
  | some r => some (dropWsL r)
  | none => none

/-- Matcher for the forward-slash separator. -/
def matchSlash : List Char → Option (List Char)
  | '/' :: r => some r
  | _ => none

/-- Inside the parenthesized-featuring regex: match the word feat
(case-insensitively), an optional dot, then greedily any characters other
than a closing parenthesis, then the closing parenthesis. -/
def matchFeatClose (l : List Char) : Option (List Char) :=
  match matchCi ['f', 'e', 'a', 't'] l with
  | some r =>
    let r2 := match r with
      | '.' :: rr => rr
      | _ => r
    match r2.dropWhile (fun c => c ≠ ')') with
    | ')' :: rr => some rr
    | _ => none
  | none => none

/-- The lazy dot-star of the parenthesized-featuring regex: find the earliest
position at which the featuring clause closes; the dot cannot cross a line
terminator. -/
def featSearch : List Char → Option (List Char)
  | [] => none
  | c :: rest =>
    match matchFeatClose (c :: rest) with
    | some r => some r
    | none => if isLineTermChar c then none else featSearch rest

/-- Matcher for the parenthesized-featuring removal regex: an opening
parenthesis, a lazy dot-star, the word feat with optional dot, any characters
other than a closing parenthesis, and the closing parenthesis. -/
def matchParenFeat : List Char → Option (List Char)
  | '(' :: rest => featSearch rest
  | _ => none

/-- Generic global-replace scanner: at each position try the matcher; on a
match emit the replacement and continue after the match, otherwise emit the
character and advance.  Fuel bounds the number of steps; since every matcher
of the source consumes at least one character, fuel equal to the input length
is sufficient. -/
def scanRepl (m : List Char → Option (List Char)) (repl : List Char) :
    Nat → List Char → List Char
  | 0, l => l
  | _ + 1, [] => []
  | fuel + 1, c :: rest =>
    match m (c :: rest) with
    | some after => repl ++ scanRepl m repl fuel after
    | none => c :: scanRepl m repl fuel rest

/-- Run one global replace pass over the whole input. -/
def runPass (m : List Char → Option (List Char)) (repl : List Char)
    (l : List Char) : List Char :=
  scanRepl m repl l.length l

/-- The full separator-normalization chain of splitArtistCredits, in source
order: remove parenthesized featuring clauses, then rewrite each separator
pattern to a pipe. -/
def applySeps (l : List Char) : List Char :=
  let s0 := runPass matchParenFeat [] l
  let s1 := runPass matchAmp ['|'] s0
  let s2 := runPass matchComma ['|'] s1
  let s3 := runPass matchXSep ['|'] s2
  let s4 := runPass matchXUpper ['|'] s3
  let s5 := runPass (matchWordSep ['w', 'i', 't', 'h']) ['|'] s4
  let s6 := runPass (matchWordSep ['a', 'n', 'd']) ['|'] s5
  let s7 := runPass matchFeatSep ['|'] s6
  let s8 := runPass matchFeaturing ['|'] s7
  runPass matchSlash ['|'] s8

/-- String.prototype.split on the pipe character. -/
def splitPipe : List Char → List (List Char)
  | [] => [[]]
  | c :: rest =>
    if c = '|' then [] :: splitPipe rest
    else
      match splitPipe rest with
      | t :: ts => (c :: t) :: ts
      | [] => [[c]]

/-- Strip the maximal leading run of dash characters. -/
def dropDashStart (l : List Char) : List Char := l.dropWhile isDashChar

/-- Strip the maximal trailing run of dash characters. -/
def dropDashEnd (l : List Char) : List Char := (l.reverse.dropWhile isDashChar).reverse

/-- splitArtistCredits from the source: nothing for a missing or empty raw
credit; otherwise remove parenthesized featuring clauses, normalize the
separator patterns to pipes, split on pipes, trim each token, discard empty
tokens, then strip leading/trailing dashes and trim again. -/
def splitArtistCredits (raw : Option String) : List String :=
  match raw with
  | none => []
  | some r =>
    if r = "" then []
    else
      (((splitPipe (applySeps r.data)).map trimChars).filter (fun t => t ≠ [])).map
        (fun t => String.mk (trimChars (dropDashEnd (dropDashStart t))))

/-! ## The song data model and the reconciliation step -/

/-- A song record as carried through updateAppleTopSongs after the iTunes
lookup enrichment (the songsEnriched shape). -/
structure Song where
  id : String
  title : String
  artist : String
  image : Option String := none
  url : Option String := none
  albumId : Option String := none
  album : Option String := none
  primaryArtist : Option String := none
deriving DecidableEq

/-- The artist partition key of the reconciliation loop: the primaryArtist
field if truthy, else the raw artist credit, else the empty string, all
lowercased. -/
def artistKey (s : Song) : String :=
  toLowerStr (jsOrStr (s.primaryArtist.getD "") (jsOrStr s.artist ""))

/-- The album-name half of the album key: the lowercased album name with the
name prefix, when the album name is truthy. -/
def albumNameKey (s : Song) : Option String :=
  match s.album with
  | some al => if al = "" then none else some ("name:" ++ toLowerStr al)
  | none => none

/-- The album key of the reconciliation loop: the album identifier with the
id prefix when truthy, else the lowercased album name with the name prefix
when truthy, else nothing. -/
def albumKeyOpt (s : Song) : Option String :=
  match s.albumId with
  | some a => if a = "" then albumNameKey s else some ("id:" ++ a)
  | none => albumNameKey s

/-- The key recorded in the seen set for one song: the album key when present,
else the song's own id with the track prefix. -/
def songSeenKey (s : Song) : String :=
  match albumKeyOpt s with
  | some k => k
  | none => "track:" ++ s.id

/-- The album-uniqueness reconciliation loop of updateAppleTopSongs, with the
artist-to-seen-album-keys map flattened to a list of artist-key/album-key
pairs. -/
def reconcileAux (seen : List (String × String)) : List Song → List Song
  | [] => []
  | s :: rest =>
    if (artistKey s, songSeenKey s) ∈ seen then reconcileAux seen rest
    else s :: reconcileAux ((artistKey s, songSeenKey s) :: seen) rest

/-- The reconciled unique-song list of updateAppleTopSongs. -/
def uniqueSongs (songs : List Song) : List Song := reconcileAux [] songs

/-! ## Artist derivation from the reconciled songs -/

/-- One derived-artist entry: the canonical id (the key of the displayName
and artistImage maps), the first-seen display name, and the bound image. -/
structure ArtistEntry where
  norm : String
  name : String
  image : Option String := none
deriving DecidableEq

/-- A top-artist record as written to the artifacts. -/
structure TopArtist where
  name : String
  image_url : Option String := none
deriving DecidableEq

/-- Processing of a single credit token in the artist-derivation loop:
normalize the display name, lowercase it to the canonical id, skip empty ids,
register a first-seen entry, and bind the song artwork when no image is bound
yet and the artwork is truthy. -/
def deriveStep (st : List ArtistEntry) (img : Option String) (c : String) :
    List ArtistEntry :=
  let disp := normalizeArtistName c
  let n := toLowerStr disp
  if n = "" then st
  else if st.any (fun e => e.norm == n) then
    st.map (fun e =>
      if e.norm = n ∧ e.image = none ∧ isTruthyO img = true then { e with image := img }
      else e)
  else st ++ [{ norm := n, name := disp, image := if isTruthyO img then img else none }]

/-- The artist-derivation loop of updateAppleTopSongs over a song list. -/
def deriveState (songs : List Song) : List ArtistEntry :=
  songs.foldl
    (fun st s =>
      (splitArtistCredits (some s.artist)).foldl (fun st2 c => deriveStep st2 s.image c) st)
    []

/-- The derived artist list of updateAppleTopSongs: one record per entry in
first-seen order, with the bound image or null. -/
def deriveArtists (songs : List Song) : List TopArtist :=
  (deriveState songs).map (fun e => { name := e.name, image_url := jsOrO e.image none })

/-! ## Specification-side descriptions of the artist derivation

These definitions follow the words of the specification (first-appearance
order, first display name seen, first non-null image seen) and are proved to
coincide with the loop above. -/

/-- One normalized credit occurrence: canonical id, display name, and the
song artwork carried with it; nothing when the canonical id is empty. -/
def normTriple (img : Option String) (c : String) :
    Option (String × String × Option String) :=
  let disp := normalizeArtistName c
  let n := toLowerStr disp
  if n = "" then none else some (n, disp, img)

/-- The stream of normalized credit occurrences of a song list, in input
order. -/
def creditTriples : List Song → List (String × String × Option String)
  | [] => []
  | s :: rest =>
    (splitArtistCredits (some s.artist)).filterMap (normTriple s.image) ++ creditTriples rest

/-- Keep the first occurrence of each element, preserving order. -/
def dedupFirst (l : List String) : List String :=
  l.foldl (fun acc x => if x ∈ acc then acc else acc ++ [x]) []

/-- The canonical ids of a credit stream in first-appearance order. -/
def firstSeenOrder (l : List (String × String × Option String)) : List String :=
  dedupFirst (l.map (fun t => t.1))

/-- The first display name seen for a canonical id in a credit stream. -/
def specDisp (l : List (String × String × Option String)) (n : String) : Option String :=
  (l.find? (fun t => t.1 == n)).map (fun t => t.2.1)

/-- The first non-null image seen for a canonical id in a credit stream. -/
def specImg (l : List (String × String × Option String)) (n : String) : Option String :=
  ((l.filter (fun t => t.1 == n)).filterMap (fun t => t.2.2)).head?

/-- The specification-side derived entries: canonical ids in first-appearance
order, each with its first display name and first non-null image. -/
def specEntries (l : List (String × String × Option String)) : List ArtistEntry :=
  (dedupFirst (l.map (fun t => t.1))).map
    (fun n => { norm := n, name := (specDisp l n).getD "", image := specImg l n })

/-- Per-occurrence form of deriveStep on an already-normalized triple;
proved equal to deriveStep below. -/
def stepT (st : List ArtistEntry) (t : String × String × Option String) :
    List ArtistEntry :=
  if st.any (fun e => e.norm == t.1) then
    st.map (fun e =>
      if e.norm = t.1 ∧ e.image = none ∧ isTruthyO t.2.2 = true then { e with image := t.2.2 }
      else e)
  else st ++ [{ norm := t.1, name := t.2.1, image := if isTruthyO t.2.2 then t.2.2 else none }]

/-- The canonical id of the first credit token of a song's raw artist credit,
the partition key described by the specification's reconciliation text. -/
def firstCreditCanon (s : Song) : String :=
  canonicalId ((splitArtistCredits (some s.artist)).headD "")

/-! ## Image enrichment of the top-artist list -/

/-- Eligibility gate of enrichTopArtistImagesWikidata: names shorter than
three characters or containing no whitespace are skipped. -/
def eligibleName (name : String) : Bool :=
  decide (3 ≤ name.length) && name.data.any isWsChar

/-- The record pushed for one artist by the enrichment loop: the artist with
its image replaced by the lookup result if truthy, else the prior image, else
null; the lookup is only consulted for eligible names. -/
def enrichOne (lookup : String → Option String) (a : TopArtist) : TopArtist :=
  let name := jsOrStr a.name ""
  let img := if eligibleName name then lookup name else none
  { name := a.name, image_url := jsOrO img (jsOrO a.image_url none) }

/-- enrichTopArtistImagesWikidata from the source, with the per-name Wikidata
lookup (which catches all its own errors and yields an image or nothing)
passed in as a function. -/
def enrichTopArtistImagesWikidata (lookup : String → Option String)
    (artists : List TopArtist) : List TopArtist :=
  artists.foldl
    (fun acc a =>
      let name := jsOrStr a.name ""
      let img := if eligibleName name then lookup name else none
      acc ++ [{ name := a.name, image_url := jsOrO img (jsOrO a.image_url none) }])
    []

/-! ## The Wikidata catalog pipeline and the top-level runner -/

/-- An artist record of the Wikidata catalog. -/
structure WArtist where
  id : String
  name : String
  aliases : List String
  image_url : String
deriving DecidableEq

/-- One tabular result row of a knowledge-graph page. -/
structure WRow where
  item : Option String := none
  itemLabel : Option String := none
  aliases : Option String := none
  image : Option String := none
deriving DecidableEq

/-- The paging loop of fetchWikidataCatalog: while the offset is below the
fixed maximum, fetch the page at the current offset, stop on an empty page,
otherwise accumulate the page's processed rows and advance the offset by the
number of rows received.  The per-row processing (lines building id, label,
aliases and the Commons thumbnail URL) is passed in as a function. -/
def fetchWikidataLoop (pages : Nat → List WRow) (rowArtist : WRow → Option WArtist)
    (maxRecords offset : Nat) (acc : List WArtist) : List WArtist :=
  if _h1 : offset < maxRecords then
    if h2 : pages offset = [] then acc
    else
      fetchWikidataLoop pages rowArtist maxRecords (offset + (pages offset).length)
        (acc ++ (pages offset).filterMap rowArtist)
  else acc
termination_by maxRecords - offset
decreasing_by
  have hlen : 0 < (pages offset).length := List.length_pos.mpr h2
  omega

/-- The number of loop iterations the paging loop performs. -/
def fetchWikidataIters (pages : Nat → List WRow) (maxRecords offset : Nat) : Nat :=
  if _h1 : offset < maxRecords then
    if h2 : pages offset = [] then 1
    else 1 + fetchWikidataIters pages maxRecords (offset + (pages offset).length)
  else 0
termination_by maxRecords - offset
decreasing_by
  have hlen : 0 < (pages offset).length := List.length_pos.mpr h2
  omega

/-- fetchWikidataCatalog from the source: run the paging loop from offset
zero up to the fixed maximum record count of 20000. -/
def fetchWikidataCatalog (pages : Nat → List WRow) (rowArtist : WRow → Option WArtist) :
    List WArtist :=
  fetchWikidataLoop pages rowArtist 20000 0 []

/-- The artists_catalog.json artifact is overwritten wholesale by whichever
pipeline ran last; its content is either the charts-derived artist list or
the Wikidata catalog. -/
inductive CatalogFile
  | appleCatalog : List TopArtist → CatalogFile
  | wikidataCatalog : List WArtist → CatalogFile
deriving DecidableEq

/-- The output artifacts on disk; a field is none while the file has not been
written in this run. -/
structure FS where
  top_songs : Option (List Song) := none
  top_artists : Option (List TopArtist) := none
  artists_catalog : Option CatalogFile := none
  songs_catalog : Option (List Song) := none
deriving DecidableEq

/-- updateAppleTopSongs as a filesystem step: reconcile the enriched songs,
write the top-songs artifact, derive the artists, enrich the first ten with
the Wikidata image lookup, write the top-artists artifact, and write the
charts-derived artist catalog (first 300 unique artists). -/
def updateAppleTopSongsFS (lookup : String → Option String)
    (songsEnriched : List Song) (fs : FS) : FS :=
  let u := uniqueSongs songsEnriched
  let allArtists := deriveArtists u
  let artists10 := enrichTopArtistImagesWikidata lookup (allArtists.take 10)
  { fs with
    top_songs := some u
    top_artists := some artists10
    artists_catalog := some (CatalogFile.appleCatalog (allArtists.take 300)) }

/-- buildSongsCatalogFromItunes as a filesystem step: write the songs
catalog assembled from the seeded searches. -/
def buildSongsCatalogFS (out : List Song) (fs : FS) : FS :=
  { fs with songs_catalog := some out }

/-- updateWikidataCatalog as a filesystem step: a failing catalog fetch
propagates; on success the artist catalog is overwritten and, when the
top-artists artifact exists, its missing images are filled from the catalog
by lowercased name (the by-name map keeps the last record for duplicate
names, hence the reversed search). -/
def updateWikidataCatalogFS (wfetch : Except String (List WArtist)) (fs : FS) :
    Except String FS :=
  match wfetch with
  | Except.error e => Except.error e
  | Except.ok artists =>
    let fs1 := { fs with artists_catalog := some (CatalogFile.wikidataCatalog artists) }
    match fs1.top_artists with
    | none => Except.ok fs1
    | some top =>
      Except.ok { fs1 with
        top_artists := some (top.map (fun a =>
          { a with
            image_url := jsOrO a.image_url (jsOrO
              ((artists.reverse.find? (fun w => toLowerStr w.name == toLowerStr a.name)).map
                (fun w => w.image_url)) none) })) }

/-- The top-level runner: mode selection, the sequential pipeline of the
run-everything mode, and the catch handler that exits with a non-zero status
when a step rejects, leaving every artifact already written in place. -/
def mainRun (mode : String) (lookup : String → Option String)
    (songsEnriched : List Song) (itunesOut : List Song)
    (wfetch : Except String (List WArtist)) : FS × Nat :=
  let fs0 : FS := {}
  if mode = "apple" then
    (buildSongsCatalogFS itunesOut (updateAppleTopSongsFS lookup songsEnriched fs0), 0)
  else if mode = "wikidata" then
    match updateWikidataCatalogFS wfetch fs0 with
    | Except.ok fs => (fs, 0)
    | Except.error _ => (fs0, 1)
  else
    let fs1 := updateAppleTopSongsFS lookup songsEnriched fs0
    let fs2 := buildSongsCatalogFS itunesOut fs1
    match updateWikidataCatalogFS wfetch fs2 with
    | Except.ok fs => (fs, 0)
    | Except.error _ => (fs2, 1)

/-! ## Concrete records used by the scenario claims -/

/-- Song 1 of the specification scenario. -/
def scenarioSong1 : Song := { id := "1", title := "X", artist := "A & B", albumId := some "al1" }

/-- Song 2 of the specification scenario. -/
def scenarioSong2 : Song := { id := "2", title := "Y", artist := "A", albumId := some "al1" }

/-- Song 3 of the specification scenario. -/
def scenarioSong3 : Song := { id := "3", title := "Z", artist := "A", albumId := some "al2" }

/-- A fourth song sharing scenario song 2's artist and album identifier but
with a different title, used to instantiate the first-survives property. -/
def scenarioSong2b : Song := { id := "4", title := "W", artist := "A", albumId := some "al1" }

/-! ## Theorems: whitespace trimming and collapsing -/

theorem length_dropWhile_le (p : Char → Bool) (l : List Char) :
    (l.dropWhile p).length ≤ l.length := by
  induction l with
  | nil => simp
  | cons c r ih =>
    by_cases hp : p c
    · simp only [List.dropWhile_cons, hp, if_true]
      exact le_trans ih (Nat.le_succ _)
    · simp [List.dropWhile_cons, hp]

theorem dropWhile_dropWhile_self (p : Char → Bool) (l : List Char) :
    (l.dropWhile p).dropWhile p = l.dropWhile p := by
  induction l with
  | nil => rfl
  | cons c r ih =>
    by_cases hp : p c
    · simp only [List.dropWhile_cons, hp, if_true]
      exact ih
    · simp [List.dropWhile_cons, hp]

theorem head_false_of_dropWhile_eq (p : Char → Bool) (c : Char) (r : List Char)
    (h : (c :: r).dropWhile p = c :: r) : p c = false := by
  by_cases hp : p c
  · exfalso
    rw [List.dropWhile_cons, if_pos hp] at h
    have hlen := length_dropWhile_le p r
    rw [h] at hlen
    simp at hlen
  · simpa using hp

theorem dropWhile_eq_self_of_prefix (p : Char → Bool) {l₁ l₂ : List Char}
    (hp : l₁ <+: l₂) (h : l₂.dropWhile p = l₂) : l₁.dropWhile p = l₁ := by
  cases l₁ with
  | nil => rfl
  | cons c r =>
    obtain ⟨t, ht⟩ := hp
    have hc : p c = false := by
      apply head_false_of_dropWhile_eq p c (r ++ t)
      rw [List.cons_append] at ht
      rw [ht]
      exact h
    simp [List.dropWhile_cons, hc]

theorem trimRightWs_prefixOf (l : List Char) : trimRightWs l <+: l := by
  have hs : l.reverse.dropWhile isWsChar <:+ l.reverse := List.dropWhile_suffix _
  have h2 := List.reverse_prefix.mpr hs
  simpa [trimRightWs] using h2

theorem trimChars_noLead (l : List Char) :
    (trimChars l).dropWhile isWsChar = trimChars l := by
  unfold trimChars
  exact dropWhile_eq_self_of_prefix _ (trimRightWs_prefixOf (trimLeftWs l))
    (dropWhile_dropWhile_self _ l)

theorem trimChars_noTrail (l : List Char) :
    (trimChars l).reverse.dropWhile isWsChar = (trimChars l).reverse := by
  unfold trimChars trimRightWs
  rw [List.reverse_reverse]
  exact dropWhile_dropWhile_self _ _

theorem trimChars_idem (l : List Char) : trimChars (trimChars l) = trimChars l := by
  conv_lhs => rw [trimChars]
  rw [show trimLeftWs (trimChars l) = trimChars l from trimChars_noLead l]
  rw [trimRightWs, trimChars_noTrail, List.reverse_reverse]

theorem getLast_false_of_noTrail (p : Char → Bool) (l : List Char)
    (h : l.reverse.dropWhile p = l.reverse) :
    ∀ c, l.getLast? = some c → p c = false := by
  intro c hc
  have hh : l.reverse.head? = some c := by rw [List.head?_reverse]; exact hc
  cases hr : l.reverse with
  | nil => rw [hr] at hh; simp at hh
  | cons d t =>
    rw [hr] at hh
    simp at hh
    rw [hr] at h
    rw [← hh]
    exact head_false_of_dropWhile_eq p d t h

theorem noTrail_of_getLast (p : Char → Bool) (l : List Char)
    (h : ∀ c, l.getLast? = some c → p c = false) :
    l.reverse.dropWhile p = l.reverse := by
  cases hr : l.reverse with
  | nil => rfl
  | cons d t =>
    have hd : l.getLast? = some d := by
      rw [← List.head?_reverse, hr]
      rfl
    have := h d hd
    simp [List.dropWhile_cons, this]

theorem collapseWsAux_ne_nil :
    ∀ t : List Char, (∀ c, t.getLast? = some c → isWsChar c = false) → t ≠ [] →
      ∀ b, collapseWsAux b t ≠ [] := by
  intro t
  induction t with
  | nil => intro _ hne; exact absurd rfl hne
  | cons c r ih =>
    intro h _ b
    cases r with
    | nil =>
      have hc : isWsChar c = false := h c (List.getLast?_singleton c)
      simp [collapseWsAux, hc]
    | cons d s =>
      have h' : ∀ e, (d :: s).getLast? = some e → isWsChar e = false := by
        intro e he
        exact h e (by rw [List.getLast?_cons_cons]; exact he)
      by_cases hc : isWsChar c
      · cases b with
        | true =>
          have hstep : collapseWsAux true (c :: d :: s) = collapseWsAux true (d :: s) := by
            simp [collapseWsAux, hc]
          rw [hstep]
          exact ih h' (by simp) true
        | false => simp [collapseWsAux, hc]
      · simp [collapseWsAux, hc]

theorem collapseWsAux_getLast :
    ∀ t : List Char, (∀ c, t.getLast? = some c → isWsChar c = false) →
      ∀ b e, (collapseWsAux b t).getLast? = some e → isWsChar e = false := by
  intro t
  induction t with
  | nil => intro _ b e he; simp [collapseWsAux] at he
  | cons c r ih =>
    intro h b e he
    cases r with
    | nil =>
      have hc : isWsChar c = false := h c (List.getLast?_singleton c)
      simp [collapseWsAux, hc] at he
      subst he
      exact hc
    | cons d s =>
      have h' : ∀ x, (d :: s).getLast? = some x → isWsChar x = false := by
        intro x hx
        exact h x (by rw [List.getLast?_cons_cons]; exact hx)
      have hne : collapseWsAux true (d :: s) ≠ [] :=
        collapseWsAux_ne_nil (d :: s) h' (by simp) true
      have hneF : collapseWsAux false (d :: s) ≠ [] :=
        collapseWsAux_ne_nil (d :: s) h' (by simp) false
      by_cases hc : isWsChar c
      · cases b with
        | true =>
          have hstep : collapseWsAux true (c :: d :: s) = collapseWsAux true (d :: s) := by
            simp [collapseWsAux, hc]
          rw [hstep] at he
          exact ih h' true e he
        | false =>
          have hstep : collapseWsAux false (c :: d :: s) =
              ' ' :: collapseWsAux true (d :: s) := by
            simp [collapseWsAux, hc]
          rw [hstep] at he
          cases hx : collapseWsAux true (d :: s) with
          | nil => exact absurd hx hne
          | cons y ys =>
            rw [hx, List.getLast?_cons_cons] at he
            apply ih h' true e
            rw [hx]
            exact he
      · have hstep : collapseWsAux b (c :: d :: s) =
            c :: collapseWsAux false (d :: s) := by
          simp [collapseWsAux, hc]
        rw [hstep] at he
        cases hx : collapseWsAux false (d :: s) with
        | nil => exact absurd hx hneF
        | cons y ys =>
          rw [hx, List.getLast?_cons_cons] at he
          apply ih h' false e
          rw [hx]
          exact he

theorem collapseWsAux_noLead (t : List Char)
    (h : t.dropWhile isWsChar = t) :
    (collapseWsAux false t).dropWhile isWsChar = collapseWsAux false t := by
  cases t with
  | nil => rfl
  | cons c r =>
    have hc : isWsChar c = false := head_false_of_dropWhile_eq _ c r h
    simp [collapseWsAux, hc, List.dropWhile_cons]

theorem collapseWsAux_idem (t : List Char) :
    ∀ b, collapseWsAux b (collapseWsAux b t) = collapseWsAux b t := by
  induction t with
  | nil => intro b; rfl
  | cons c r ih =>
    intro b
    by_cases hc : isWsChar c
    · cases b with
      | true =>
        simp only [collapseWsAux, hc, if_true]
        exact ih true
      | false =>
        simp only [collapseWsAux, hc, if_true, Bool.false_eq_true, if_false]
        have hsp : isWsChar ' ' = true := by decide
        simp only [collapseWsAux, hsp, if_true, Bool.false_eq_true, if_false]
        rw [ih true]
    · simp only [collapseWsAux, hc, Bool.false_eq_true, if_false]
      rw [ih false]

theorem normalizeArtistName_idem (s : String) :
    normalizeArtistName (normalizeArtistName s) = normalizeArtistName s := by
  unfold normalizeArtistName
  have hdata : (String.mk (collapseWsAux false (trimChars s.data))).data =
      collapseWsAux false (trimChars s.data) := rfl
  rw [hdata]
  set t := trimChars s.data with ht
  have h1 : t.dropWhile isWsChar = t := trimChars_noLead s.data
  have h2 : ∀ c, t.getLast? = some c → isWsChar c = false :=
    getLast_false_of_noTrail _ _ (trimChars_noTrail s.data)
  have h3 : (collapseWsAux false t).dropWhile isWsChar = collapseWsAux false t :=
    collapseWsAux_noLead t h1
  have h4 : ∀ c, (collapseWsAux false t).getLast? = some c → isWsChar c = false :=
    collapseWsAux_getLast t h2 false
  have h5 : trimChars (collapseWsAux false t) = collapseWsAux false t := by
    unfold trimChars
    rw [show trimLeftWs (collapseWsAux false t) = collapseWsAux false t from h3]
    rw [trimRightWs, noTrail_of_getLast _ _ h4, List.reverse_reverse]
  rw [h5, collapseWsAux_idem t false]

/-! ## Claim C5: canonicalization is invariant under display normalization -/

/-- C5: for every string s, the canonical id of the display-normalized form
of s equals the canonical id of s; in the code the canonical id is
normalizeArtistName followed by toLowerCase and the display normalization is
normalizeArtistName itself, so the property reduces to idempotence of
normalizeArtistName. -/
theorem c5_canonicalize_after_normalizeDisplay (s : String) :
    canonicalId (normalizeArtistName s) = canonicalId s := by
  unfold canonicalId
  rw [normalizeArtistName_idem]

/-! ## Claim C3: concrete credit-splitting examples -/

/-- C3 counterexample: splitArtistCredits applied to the unparenthesized
credit Artist A feat. Artist B does not return the single-element list the
claim states; the featuring clause is removed entirely only when it is
parenthesized, while the bare feat-dot pattern acts as a separator. -/
theorem c3_counterexample :
    splitArtistCredits (some "Artist A feat. Artist B") ≠ ["Artist A"] := by decide

/-- C3 amended: the ampersand example and the unparenthesized feat example
split into two names, the parenthesized featuring clause is removed entirely,
and the bare feat-with-dot pattern behaves as a separator exactly like the
dotless one. -/
theorem c3_amended :
    splitArtistCredits (some "Bad Bunny & Drake") = ["Bad Bunny", "Drake"] ∧
    splitArtistCredits (some "Artist A (feat. Artist B)") = ["Artist A"] ∧
    splitArtistCredits (some "Artist A feat. Artist B") = ["Artist A", "Artist B"] ∧
    splitArtistCredits (some "Artist A feat Artist B") = ["Artist A", "Artist B"] :=
  ⟨by decide, by decide, by decide, by decide⟩

/-! ## Claim C1: the reconciliation scenario -/

/-- C1 counterexample: on the scenario input the reconciliation step of
updateAppleTopSongs does not keep exactly the songs with ids 1 and 3: song 2
is not dropped, because the artist partition key is the lowercased full
credit string, and song 1's key (the whole credit a-ampersand-b) differs from
song 2's key. -/
theorem c1_counterexample :
    (uniqueSongs [scenarioSong1, scenarioSong2, scenarioSong3]).map Song.id ≠
      ["1", "3"] := by decide

/-- C1 amended: on the scenario input the reconciliation keeps all three
songs in order, because song 2's artist key differs from song 1's; the artist
list derived from the kept songs is still the two names A then B in first-seen
order. -/
theorem c1_amended :
    (uniqueSongs [scenarioSong1, scenarioSong2, scenarioSong3]).map Song.id =
      ["1", "2", "3"] ∧
    (deriveArtists (uniqueSongs [scenarioSong1, scenarioSong2, scenarioSong3])).map
      TopArtist.name = ["A", "B"] :=
  ⟨by decide, by decide⟩

/-! ## Claim C2 counterexample: the partition key is not the first credit token -/

/-- C2 counterexample: two songs with the same album identifier whose first
credit tokens share one canonical id both survive reconciliation, because the
loop partitions by the lowercased full primaryArtist-or-artist string rather
than by the first credit token the claim describes. -/
theorem c2_counterexample :
    uniqueSongs [scenarioSong1, scenarioSong2] = [scenarioSong1, scenarioSong2] ∧
    firstCreditCanon scenarioSong1 = firstCreditCanon scenarioSong2 ∧
    songSeenKey scenarioSong1 = songSeenKey scenarioSong2 :=
  ⟨by decide, by decide, by decide⟩

/-! ## Claim C6: token shape of splitArtistCredits -/

/-- C6 counterexample: a raw credit consisting of a single dash produces a
list containing the empty string, because empty tokens are discarded before
the dash-stripping step rather than after it. -/
theorem c6_counterexample : "" ∈ splitArtistCredits (some "-") := by decide

/-- C6 amended: a missing or empty raw credit yields the empty list, and
every returned token is whitespace-trimmed; tokens are not guaranteed
non-empty, since the empty-token filter runs before dash stripping, so an
all-dash token becomes the empty string. -/
theorem c6_amended :
    splitArtistCredits none = [] ∧ splitArtistCredits (some "") = [] ∧
    ∀ raw t, t ∈ splitArtistCredits raw → trimChars t.data = t.data := by
  refine ⟨rfl, rfl, ?_⟩
  intro raw t ht
  cases raw with
  | none => simp [splitArtistCredits] at ht
  | some r =>
    rw [splitArtistCredits] at ht
    by_cases hr : r = ""
    · simp [hr] at ht
    · rw [if_neg hr, List.mem_map] at ht
      obtain ⟨x, _, hx⟩ := ht
      rw [← hx]
      exact trimChars_idem (dropDashEnd (dropDashStart x))

/-- C6 witness: the trimmedness consequence instantiated at a concrete
one-letter credit, with the membership hypothesis discharged by evaluation. -/
theorem c6_witness :
    ("a" ∈ splitArtistCredits (some "a")) ∧
      trimChars ("a" : String).data = ("a" : String).data :=
  ⟨by decide, c6_amended.2.2 (some "a") "a" (by decide)⟩

/-! ## Claims C7 and C10: the image-enrichment loop -/

theorem jsOrStr_empty_right (a : String) : jsOrStr a "" = a := by
  unfold jsOrStr
  by_cases h : a = ""
  · rw [if_pos h, h]
  · rw [if_neg h]

theorem foldl_push_eq_map {α β : Type} (f : α → β) :
    ∀ (l : List α) (acc : List β),
      l.foldl (fun acc2 a => acc2 ++ [f a]) acc = acc ++ l.map f := by
  intro l
  induction l with
  | nil => intro acc; simp
  | cons a r ih =>
    intro acc
    rw [List.foldl_cons, ih]
    simp

theorem enrich_eq_map (lookup : String → Option String) (artists : List TopArtist) :
    enrichTopArtistImagesWikidata lookup artists = artists.map (enrichOne lookup) := by
  show artists.foldl (fun acc a => acc ++ [enrichOne lookup a]) [] = artists.map (enrichOne lookup)
  rw [foldl_push_eq_map]
  simp

theorem enrichOne_eq (lookup : String → Option String) (a : TopArtist) :
    enrichOne lookup a =
      { name := a.name,
        image_url := jsOrO (if eligibleName a.name then lookup a.name else none)
          (jsOrO a.image_url none) } := by
  unfold enrichOne
  rw [jsOrStr_empty_right]

/-- C10: the enrichment of the top-artist list is a frame-preserving map: the
output has the same length and order, each element keeps its name and every
field other than the image, and the image of each element is exactly the
lookup result when eligible and found, else the prior value, else null. -/
theorem c10_enrich_frame (lookup : String → Option String) (artists : List TopArtist) :
    enrichTopArtistImagesWikidata lookup artists =
      artists.map (fun a =>
        { name := a.name,
          image_url := jsOrO (if eligibleName a.name then lookup a.name else none)
            (jsOrO a.image_url none) }) ∧
    (enrichTopArtistImagesWikidata lookup artists).length = artists.length ∧
    (enrichTopArtistImagesWikidata lookup artists).map TopArtist.name =
      artists.map TopArtist.name ∧
    ∀ (i : Nat) (a : TopArtist), artists[i]? = some a →
      (enrichTopArtistImagesWikidata lookup artists)[i]? =
        some { name := a.name,
               image_url := jsOrO (if eligibleName a.name then lookup a.name else none)
                 (jsOrO a.image_url none) } := by
  have hmap : enrichTopArtistImagesWikidata lookup artists =
      artists.map (fun a =>
        { name := a.name,
          image_url := jsOrO (if eligibleName a.name then lookup a.name else none)
            (jsOrO a.image_url none) }) := by
    rw [enrich_eq_map]
    apply List.map_congr_left
    intro a _
    exact enrichOne_eq lookup a
  refine ⟨hmap, ?_, ?_, ?_⟩
  · rw [hmap, List.length_map]
  · rw [hmap, List.map_map]
    apply List.map_congr_left
    intro a _
    rfl
  · intro i a ha
    rw [hmap, List.getElem?_map, ha]
    rfl

/-- C10 witness: the frame property instantiated at a one-element artist list
and a lookup that always fails, discharging the index hypothesis at index
zero. -/
theorem c10_witness :
    (([{ name := "ab", image_url := none }] : List TopArtist)[0]? =
      some { name := "ab", image_url := none }) ∧
    (enrichTopArtistImagesWikidata (fun _ => none) [{ name := "ab", image_url := none }])[0]? =
      some { name := "ab",
             image_url := jsOrO (if eligibleName "ab" then none else none) (jsOrO none none) } :=
  ⟨by decide,
    (c10_enrich_frame (fun _ => none) [{ name := "ab", image_url := none }]).2.2.2 0
      { name := "ab", image_url := none } (by decide)⟩

/-- C7: enrichment is total and never drops an artist: the output list has
the same length; an artist whose name is shorter than three characters or
contains no whitespace is skipped, so the result for it is independent of the
lookup function and keeps the prior image; and when the lookup finds nothing
for a name, that artist keeps its prior image value (possibly null). -/
theorem c7_enrichment_safe (lookup : String → Option String) (artists : List TopArtist) :
    (enrichTopArtistImagesWikidata lookup artists).length = artists.length ∧
    (∀ (i : Nat) (a : TopArtist), artists[i]? = some a → eligibleName a.name = false →
      ∀ lookup2 : String → Option String,
        (enrichTopArtistImagesWikidata lookup2 artists)[i]? =
          some { name := a.name, image_url := jsOrO a.image_url none }) ∧
    (∀ (i : Nat) (a : TopArtist), artists[i]? = some a → lookup a.name = none →
      (enrichTopArtistImagesWikidata lookup artists)[i]? =
        some { name := a.name, image_url := jsOrO a.image_url none }) := by
  refine ⟨((c10_enrich_frame lookup artists).2.1 : _), ?_, ?_⟩
  · intro i a ha hinelig lookup2
    have h := (c10_enrich_frame lookup2 artists).2.2.2 i a ha
    rw [h, hinelig]
    rfl
  · intro i a ha hmiss
    have h := (c10_enrich_frame lookup artists).2.2.2 i a ha
    rw [h]
    by_cases helig : eligibleName a.name
    · rw [if_pos helig, hmiss]
      rfl
    · rw [if_neg helig]
      rfl

/-- C7 witness: the skip and miss consequences instantiated at a concrete
two-character artist name with an always-failing lookup. -/
theorem c7_witness :
    (([{ name := "ab", image_url := some "img" }] : List TopArtist)[0]? =
      some { name := "ab", image_url := some "img" }) ∧
    eligibleName "ab" = false ∧
    (enrichTopArtistImagesWikidata (fun _ => none) [{ name := "ab", image_url := some "img" }])[0]? =
      some { name := "ab", image_url := jsOrO (some "img") none } :=
  ⟨by decide, by decide,
    (c7_enrichment_safe (fun _ => none) [{ name := "ab", image_url := some "img" }]).2.1 0
      { name := "ab", image_url := some "img" } (by decide) (by decide) (fun _ => none)⟩

/-! ## Claim C8: graceful degradation of the run-everything mode -/

/-- C8: in the run-everything mode the charts pipeline writes the top-songs
and top-artists artifacts before the knowledge-graph catalog step runs, so
when the catalog fetch fails the runner exits with status one while both
artifacts remain on disk exactly as the charts pipeline produced them (artist
images as derived from the charts feed plus the per-name enrichment), with no
rollback. -/
theorem c8_graceful_degradation (lookup : String → Option String)
    (songsEnriched itunesOut : List Song) (e : String) :
    (mainRun "all" lookup songsEnriched itunesOut (Except.error e)).2 = 1 ∧
    (mainRun "all" lookup songsEnriched itunesOut (Except.error e)).1.top_songs =
      some (uniqueSongs songsEnriched) ∧
    (mainRun "all" lookup songsEnriched itunesOut (Except.error e)).1.top_artists =
      some (enrichTopArtistImagesWikidata lookup
        ((deriveArtists (uniqueSongs songsEnriched)).take 10)) := by
  refine ⟨rfl, rfl, rfl⟩

/-! ## Claim C9: the knowledge-graph paging loop is bounded -/

theorem fetchWikidataIters_le (pages : Nat → List WRow) :
    ∀ (n maxRecords offset : Nat), maxRecords - offset ≤ n →
      fetchWikidataIters pages maxRecords offset ≤ maxRecords - offset + 1 := by
  intro n
  induction n with
  | zero =>
    intro maxRecords offset h
    have hlt : ¬ offset < maxRecords := by omega
    rw [fetchWikidataIters, dif_neg hlt]
    omega
  | succ n ih =>
    intro maxRecords offset h
    rw [fetchWikidataIters]
    by_cases h1 : offset < maxRecords
    · rw [dif_pos h1]
      by_cases h2 : pages offset = []
      · rw [dif_pos h2]
        omega
      · rw [dif_neg h2]
        have hlen : 0 < (pages offset).length := List.length_pos.mpr h2
        have hrec := ih maxRecords (offset + (pages offset).length) (by omega)
        omega
    · rw [dif_neg h1]
      omega

/-- C9: for every sequence of page responses the paging loop of
fetchWikidataCatalog is bounded: the iteration count never exceeds the
remaining record budget plus one (so at most 20001 iterations from offset
zero), the loop stops immediately when the page at the current offset is
empty or when the offset has reached the maximum record count, and every
nonempty page strictly increases the offset. -/
theorem c9_paging_bounded (pages : Nat → List WRow) (rowArtist : WRow → Option WArtist)
    (maxRecords offset : Nat) (acc : List WArtist) :
    fetchWikidataIters pages maxRecords offset ≤ maxRecords - offset + 1 ∧
    (pages offset = [] →
      fetchWikidataLoop pages rowArtist maxRecords offset acc = acc) ∧
    (maxRecords ≤ offset →
      fetchWikidataLoop pages rowArtist maxRecords offset acc = acc) ∧
    (pages offset ≠ [] → offset < offset + (pages offset).length) := by
  refine ⟨fetchWikidataIters_le pages (maxRecords - offset) maxRecords offset le_rfl, ?_, ?_, ?_⟩
  · intro h2
    rw [fetchWikidataLoop]
    by_cases h1 : offset < maxRecords
    · rw [dif_pos h1, dif_pos h2]
    · rw [dif_neg h1]
  · intro h1
    rw [fetchWikidataLoop, dif_neg (by omega : ¬ offset < maxRecords)]
  · intro h2
    have := List.length_pos.mpr h2
    omega

/-- C9 witness: the bound and the empty-page stop instantiated at the empty
response sequence, the constants of fetchWikidataCatalog, and an empty
accumulator. -/
theorem c9_witness :
    fetchWikidataIters (fun _ => []) 20000 0 ≤ 20001 ∧
    fetchWikidataLoop (fun _ => []) (fun _ => none) 20000 0 [] = [] := by
  have h := c9_paging_bounded (fun _ => []) (fun _ => none) 20000 0 []
  exact ⟨by simpa using h.1, h.2.1 rfl⟩

/-! ## Claim C2: the reconciliation invariant, amended -/

theorem reconcileAux_not_seen :
    ∀ (l : List Song) (seen : List (String × String)) (t : Song),
      t ∈ reconcileAux seen l → (artistKey t, songSeenKey t) ∉ seen := by
  intro l
  induction l with
  | nil => intro seen t ht; simp [reconcileAux] at ht
  | cons s rest ih =>
    intro seen t ht
    rw [reconcileAux] at ht
    by_cases hs : (artistKey s, songSeenKey s) ∈ seen
    · rw [if_pos hs] at ht
      exact ih seen t ht
    · rw [if_neg hs] at ht
      rcases List.mem_cons.mp ht with h1 | h2
      · rw [h1]; exact hs
      · intro hmem
        exact ih _ t h2 (List.mem_cons_of_mem _ hmem)

theorem reconcileAux_pairwise :
    ∀ (l : List Song) (seen : List (String × String)),
      (reconcileAux seen l).Pairwise
        (fun a b => ¬(artistKey a = artistKey b ∧ songSeenKey a = songSeenKey b)) := by
  intro l
  induction l with
  | nil => intro seen; simp [reconcileAux]
  | cons s rest ih =>
    intro seen
    rw [reconcileAux]
    by_cases hs : (artistKey s, songSeenKey s) ∈ seen
    · rw [if_pos hs]; exact ih seen
    · rw [if_neg hs]
      rw [List.pairwise_cons]
      refine ⟨?_, ih _⟩
      intro t ht hcontra
      obtain ⟨h1, h2⟩ := hcontra
      have hnot := reconcileAux_not_seen rest _ t ht
      apply hnot
      rw [← h1, ← h2]
      exact List.mem_cons_self _ _

/-- C2 amended: for every input song sequence the album key is computed in
the priority order the claim states (truthy album identifier, else truthy
lowercased album name, else the song's own identifier), and the reconciled
output contains at most one song per artist key per album key, where the
artist key is the lowercased full primaryArtist-or-artist string rather than
the first credit token; in particular of two songs with the same artist
fields and the same truthy album identifier only the first survives. -/
theorem c2_amended (songs : List Song) :
    ((uniqueSongs songs).Pairwise
      (fun a b => ¬(artistKey a = artistKey b ∧ songSeenKey a = songSeenKey b))) ∧
    (∀ (s : Song) (a : String), s.albumId = some a → a ≠ "" →
      songSeenKey s = "id:" ++ a) ∧
    (∀ (s : Song) (al : String), (s.albumId = none ∨ s.albumId = some "") →
      s.album = some al → al ≠ "" → songSeenKey s = "name:" ++ toLowerStr al) ∧
    (∀ s : Song, (s.albumId = none ∨ s.albumId = some "") →
      (s.album = none ∨ s.album = some "") → songSeenKey s = "track:" ++ s.id) ∧
    (∀ s1 s2 : Song, s2.artist = s1.artist → s2.primaryArtist = s1.primaryArtist →
      s2.albumId = s1.albumId → ∀ a, s1.albumId = some a → a ≠ "" →
      uniqueSongs [s1, s2] = [s1]) := by
  refine ⟨reconcileAux_pairwise songs [], ?_, ?_, ?_, ?_⟩
  · intro s a ha hane
    simp [songSeenKey, albumKeyOpt, ha, hane]
  · intro s al hid hal hane
    rcases hid with h | h <;> simp [songSeenKey, albumKeyOpt, albumNameKey, h, hal, hane]
  · intro s hid hal
    rcases hid with h | h <;> rcases hal with h2 | h2 <;>
      simp [songSeenKey, albumKeyOpt, albumNameKey, h, h2]
  · intro s1 s2 hart hprim halb a hia hane
    have hak : artistKey s2 = artistKey s1 := by
      unfold artistKey
      rw [hart, hprim]
    have hsk : songSeenKey s2 = songSeenKey s1 := by
      simp [songSeenKey, albumKeyOpt, halb, hia, hane]
    unfold uniqueSongs
    rw [reconcileAux, if_neg (List.not_mem_nil _)]
    rw [reconcileAux, if_pos (by rw [hak, hsk]; exact List.mem_cons_self _ _)]
    rw [reconcileAux]

/-- C2 witness: the first-survives consequence and the album-identifier key
instantiated at two concrete songs sharing artist and album identifier. -/
theorem c2_witness :
    uniqueSongs [scenarioSong2, scenarioSong2b] = [scenarioSong2] ∧
    songSeenKey scenarioSong2 = "id:" ++ "al1" :=
  ⟨(c2_amended []).2.2.2.2 scenarioSong2 scenarioSong2b rfl rfl rfl "al1" rfl
      (by decide),
    (c2_amended []).2.1 scenarioSong2 "al1" rfl (by decide)⟩

/-! ## Claim C4: the derived artist list (structural lemmas) -/

theorem deriveStep_eq (st : List ArtistEntry) (img : Option String) (c : String) :
    deriveStep st img c =
      match normTriple img c with
      | none => st
      | some t => stepT st t := by
  unfold deriveStep normTriple stepT
  by_cases h : toLowerStr (normalizeArtistName c) = ""
  · simp [h]
  · simp [h]

theorem foldl_filterMap {α β γ : Type} (f : α → Option β) (g : γ → β → γ) :
    ∀ (l : List α) (init : γ),
      (l.filterMap f).foldl g init =
        l.foldl (fun st x => match f x with | none => st | some y => g st y) init := by
  intro l
  induction l with
  | nil => intro init; rfl
  | cons a r ih =>
    intro init
    cases hf : f a with
    | none => simp [List.filterMap_cons, hf, ih]
    | some y => simp [List.filterMap_cons, hf, ih]

theorem foldl_fun_congr {α γ : Type} (f g : γ → α → γ) (h : ∀ st x, f st x = g st x) :
    ∀ (l : List α) (init : γ), l.foldl f init = l.foldl g init := by
  intro l
  induction l with
  | nil => intro init; rfl
  | cons a r ih =>
    intro init
    rw [List.foldl_cons, List.foldl_cons, h, ih]

theorem deriveState_foldl :
    ∀ (songs : List Song) (st : List ArtistEntry),
      songs.foldl (fun st2 s => (splitArtistCredits (some s.artist)).foldl
        (fun st3 c => deriveStep st3 s.image c) st2) st =
      (creditTriples songs).foldl stepT st := by
  intro songs
  induction songs with
  | nil => intro st; rfl
  | cons s rest ih =>
    intro st
    rw [List.foldl_cons, creditTriples, List.foldl_append, ih]
    congr 1
    rw [foldl_filterMap (normTriple s.image) stepT]
    apply foldl_fun_congr
    intro st3 c
    rw [deriveStep_eq st3 s.image c]
    cases normTriple s.image c <;> rfl

theorem deriveState_eq_foldl (songs : List Song) :
    deriveState songs = (creditTriples songs).foldl stepT [] :=
  deriveState_foldl songs []

theorem dedupFirst_foldl_mem :
    ∀ (l : List String) (acc : List String) (x : String),
      (x ∈ l.foldl (fun acc2 y => if y ∈ acc2 then acc2 else acc2 ++ [y]) acc ↔
        x ∈ acc ∨ x ∈ l) := by
  intro l
  induction l with
  | nil => intro acc x; simp
  | cons y r ih =>
    intro acc x
    rw [List.foldl_cons]
    by_cases hy : y ∈ acc
    · rw [if_pos hy, ih]
      constructor
      · rintro (h | h)
        · exact Or.inl h
        · exact Or.inr (List.mem_cons_of_mem _ h)
      · rintro (h | h)
        · exact Or.inl h
        · rcases List.mem_cons.mp h with h2 | h2
          · rw [h2]; exact Or.inl hy
          · exact Or.inr h2
    · rw [if_neg hy, ih]
      constructor
      · rintro (h | h)
        · rcases List.mem_append.mp h with h2 | h2
          · exact Or.inl h2
          · simp at h2
            rw [h2]
            exact Or.inr (List.mem_cons_self _ _)
        · exact Or.inr (List.mem_cons_of_mem _ h)
      · rintro (h | h)
        · exact Or.inl (List.mem_append.mpr (Or.inl h))
        · rcases List.mem_cons.mp h with h2 | h2
          · exact Or.inl (List.mem_append.mpr (Or.inr (by simp [h2])))
          · exact Or.inr h2

theorem dedupFirst_mem (l : List String) (x : String) : x ∈ dedupFirst l ↔ x ∈ l := by
  unfold dedupFirst
  rw [dedupFirst_foldl_mem]
  simp

theorem dedupFirst_foldl_nodup :
    ∀ (l : List String) (acc : List String), acc.Nodup →
      (l.foldl (fun acc2 y => if y ∈ acc2 then acc2 else acc2 ++ [y]) acc).Nodup := by
  intro l
  induction l with
  | nil => intro acc h; exact h
  | cons y r ih =>
    intro acc h
    rw [List.foldl_cons]
    by_cases hy : y ∈ acc
    · rw [if_pos hy]; exact ih acc h
    · rw [if_neg hy]
      apply ih
      rw [List.nodup_append]
      refine ⟨h, List.nodup_singleton y, ?_⟩
      intro a ha hb
      simp at hb
      rw [hb] at ha
      exact hy ha

theorem dedupFirst_nodup (l : List String) : (dedupFirst l).Nodup :=
  dedupFirst_foldl_nodup l [] List.nodup_nil

theorem dedupFirst_append_singleton (l : List String) (x : String) :
    dedupFirst (l ++ [x]) =
      if x ∈ l then dedupFirst l else dedupFirst l ++ [x] := by
  have hmem : (x ∈ l.foldl (fun acc2 y => if y ∈ acc2 then acc2 else acc2 ++ [y]) []) ↔
      x ∈ l := by
    rw [dedupFirst_foldl_mem]; simp
  unfold dedupFirst
  rw [List.foldl_append]
  rw [List.foldl_cons, List.foldl_nil]
  by_cases hx : x ∈ l
  · rw [if_pos (hmem.mpr hx), if_pos hx]
  · rw [if_neg (fun hc => hx (hmem.mp hc)), if_neg hx]

theorem specDisp_append_of_mem (l l₂ : List (String × String × Option String)) (n : String)
    (h : n ∈ l.map (fun u => u.1)) : specDisp (l ++ l₂) n = specDisp l n := by
  unfold specDisp
  rw [List.find?_append]
  obtain ⟨u, hu, hun⟩ := List.mem_map.mp h
  have hsome : (l.find? (fun v => v.1 == n)).isSome := by
    rw [List.find?_isSome]
    exact ⟨u, hu, by simp [hun]⟩
  cases hf : l.find? (fun v => v.1 == n) with
  | none => rw [hf] at hsome; simp at hsome
  | some v => simp

theorem specDisp_append_not_mem (l : List (String × String × Option String))
    (t : String × String × Option String) (h : ∀ u ∈ l, u.1 ≠ t.1) :
    specDisp (l ++ [t]) t.1 = some t.2.1 := by
  unfold specDisp
  rw [List.find?_append]
  have hnone : l.find? (fun v => v.1 == t.1) = none := by
    rw [List.find?_eq_none]
    intro u hu
    simp [h u hu]
  rw [hnone]
  simp [List.find?]

theorem specImg_append (l l₂ : List (String × String × Option String)) (n : String) :
    specImg (l ++ l₂) n = Option.or (specImg l n) (specImg l₂ n) := by
  unfold specImg
  rw [List.filter_append, List.filterMap_append, List.head?_append]

theorem specImg_singleton (t : String × String × Option String) :
    specImg [t] t.1 = t.2.2 := by
  unfold specImg
  cases h : t.2.2 <;> simp [List.filter, List.filterMap, h]

theorem specImg_none_of_not_mem (l : List (String × String × Option String)) (n : String)
    (h : ∀ u ∈ l, u.1 ≠ n) : specImg l n = none := by
  unfold specImg
  have hfil : l.filter (fun v => v.1 == n) = [] := by
    rw [List.filter_eq_nil_iff]
    intro u hu
    simp [h u hu]
  rw [hfil]
  rfl

theorem specImg_singleton_ne (t : String × String × Option String) (n : String)
    (h : t.1 ≠ n) : specImg [t] n = none := by
  apply specImg_none_of_not_mem
  intro u hu
  simp at hu
  rw [hu]
  exact h

theorem any_map_poly {α β : Type} (f : α → β) (p : β → Bool) :
    ∀ l : List α, (l.map f).any p = l.any (fun x => p (f x)) := by
  intro l
  induction l with
  | nil => rfl
  | cons a r ih => simp [List.any_cons, ih]

theorem specEntries_any (l : List (String × String × Option String)) (n : String) :
    ((specEntries l).any (fun e => e.norm == n) = true ↔ n ∈ l.map (fun u => u.1)) := by
  unfold specEntries
  rw [any_map_poly, List.any_eq_true]
  constructor
  · rintro ⟨x, hx, hbeq⟩
    have hxn : x = n := by simpa using hbeq
    rw [← hxn]
    exact (dedupFirst_mem _ _).mp hx
  · intro h
    exact ⟨n, (dedupFirst_mem _ _).mpr h, by simp⟩

theorem specEntries_append_singleton (l : List (String × String × Option String))
    (t : String × String × Option String) (ht : t.2.2 ≠ some "") :
    specEntries (l ++ [t]) = stepT (specEntries l) t := by
  by_cases hmem : t.1 ∈ l.map (fun u => u.1)
  · unfold stepT
    rw [if_pos ((specEntries_any l t.1).mpr hmem)]
    unfold specEntries
    rw [List.map_append, List.map_singleton, dedupFirst_append_singleton, if_pos hmem,
      List.map_map]
    apply List.map_congr_left
    intro n hn
    have hmemn : n ∈ l.map (fun u => u.1) := (dedupFirst_mem _ _).mp hn
    simp only [Function.comp_apply]
    rw [specDisp_append_of_mem l [t] n hmemn, specImg_append]
    by_cases hnt : n = t.1
    · subst hnt
      rw [specImg_singleton]
      cases himg : specImg l t.1 with
      | some x => simp [Option.or]
      | none =>
        cases ht22 : t.2.2 with
        | some s =>
          have hs : s ≠ "" := fun h => ht (by rw [ht22, h])
          simp [Option.or, isTruthyO, hs]
        | none => simp [Option.or, isTruthyO]
    · rw [specImg_singleton_ne t n (fun h => hnt h.symm)]
      have hor : Option.or (specImg l n) none = specImg l n := by
        cases specImg l n <;> rfl
      rw [hor, if_neg (fun hcond => hnt hcond.1)]
  · unfold stepT
    rw [if_neg (fun hc => hmem ((specEntries_any l t.1).mp hc))]
    unfold specEntries
    rw [List.map_append, List.map_singleton, dedupFirst_append_singleton, if_neg hmem,
      List.map_append]
    have hnl : ∀ u ∈ l, u.1 ≠ t.1 := by
      intro u hu heq
      exact hmem (List.mem_map.mpr ⟨u, hu, heq⟩)
    congr 1
    · apply List.map_congr_left
      intro n hn
      have hmemn : n ∈ l.map (fun u => u.1) := (dedupFirst_mem _ _).mp hn
      have hnt : n ≠ t.1 := fun h => hmem (h ▸ hmemn)
      rw [specDisp_append_of_mem l [t] n hmemn, specImg_append,
        specImg_singleton_ne t n (fun h => hnt h.symm)]
      have hor : Option.or (specImg l n) none = specImg l n := by
        cases specImg l n <;> rfl
      rw [hor]
    · rw [List.map_cons, List.map_nil]
      rw [specDisp_append_not_mem l t hnl]
      rw [specImg_append, specImg_none_of_not_mem l t.1 hnl, specImg_singleton]
      cases ht22 : t.2.2 with
      | some s =>
        have hs : s ≠ "" := fun h => ht (by rw [ht22, h])
        simp [Option.or, isTruthyO, hs]
      | none => simp [Option.or, isTruthyO]

theorem foldl_stepT_spec :
    ∀ (l₂ l₁ : List (String × String × Option String)),
      (∀ t ∈ l₂, t.2.2 ≠ some "") →
      l₂.foldl stepT (specEntries l₁) = specEntries (l₁ ++ l₂) := by
  intro l₂
  induction l₂ with
  | nil => intro l₁ _; rw [List.foldl_nil, List.append_nil]
  | cons t r ih =>
    intro l₁ h
    rw [List.foldl_cons,
      ← specEntries_append_singleton l₁ t (h t (List.mem_cons_self _ _)),
      ih (l₁ ++ [t]) (fun u hu => h u (List.mem_cons_of_mem _ hu)),
      List.append_assoc]
    rfl

theorem deriveState_eq_specEntries (songs : List Song)
    (h : ∀ t ∈ creditTriples songs, t.2.2 ≠ some "") :
    deriveState songs = specEntries (creditTriples songs) := by
  rw [deriveState_eq_foldl]
  have hspec := foldl_stepT_spec (creditTriples songs) [] h
  rw [List.nil_append] at hspec
  exact hspec

theorem creditTriples_wf :
    ∀ songs : List Song, ∀ t ∈ creditTriples songs,
      t.1 = toLowerStr t.2.1 ∧ normalizeArtistName t.2.1 = t.2.1 ∧
      ∃ s ∈ songs, t.2.2 = s.image := by
  intro songs
  induction songs with
  | nil => intro t ht; simp [creditTriples] at ht
  | cons s rest ih =>
    intro t ht
    rw [creditTriples] at ht
    rcases List.mem_append.mp ht with h1 | h2
    · obtain ⟨c, _, hnt⟩ := List.mem_filterMap.mp h1
      by_cases hn : toLowerStr (normalizeArtistName c) = ""
      · simp [normTriple, hn] at hnt
      · simp only [normTriple, hn, if_false] at hnt
        have hteq := Option.some.inj hnt
        rw [← hteq]
        exact ⟨rfl, normalizeArtistName_idem c, ⟨s, List.mem_cons_self _ _, rfl⟩⟩
    · obtain ⟨ha, hb, s', hs', he⟩ := ih t h2
      exact ⟨ha, hb, ⟨s', List.mem_cons_of_mem _ hs', he⟩⟩

theorem creditTriples_img (songs : List Song)
    (himg : ∀ s ∈ songs, s.image ≠ some "") :
    ∀ t ∈ creditTriples songs, t.2.2 ≠ some "" := by
  intro t ht
  obtain ⟨_, _, s, hs, he⟩ := creditTriples_wf songs t ht
  rw [he]
  exact himg s hs

theorem specEntries_entry_canon (l : List (String × String × Option String))
    (hwf : ∀ t ∈ l, t.1 = toLowerStr t.2.1 ∧ normalizeArtistName t.2.1 = t.2.1)
    (n : String) (hn : n ∈ l.map (fun u => u.1)) :
    ∃ d, specDisp l n = some d ∧ canonicalId d = n := by
  have hsome : (l.find? (fun v => v.1 == n)).isSome := by
    rw [List.find?_isSome]
    obtain ⟨u, hu, hun⟩ := List.mem_map.mp hn
    exact ⟨u, hu, by simp [hun]⟩
  cases hf : l.find? (fun v => v.1 == n) with
  | none => rw [hf] at hsome; simp at hsome
  | some v =>
    have hv : v ∈ l := List.mem_of_find?_eq_some hf
    have hvn : v.1 = n := by
      have := List.find?_some hf
      simpa using this
    obtain ⟨h1, h2⟩ := hwf v hv
    refine ⟨v.2.1, ?_, ?_⟩
    · unfold specDisp
      rw [hf]
      rfl
    · unfold canonicalId
      rw [h2, ← h1, hvn]

theorem specImg_ne_empty (l : List (String × String × Option String))
    (h : ∀ t ∈ l, t.2.2 ≠ some "") (n : String) : specImg l n ≠ some "" := by
  unfold specImg
  intro hc
  have hmem : "" ∈ (l.filter (fun v => v.1 == n)).filterMap (fun v => v.2.2) := by
    cases hl : (l.filter (fun v => v.1 == n)).filterMap (fun v => v.2.2) with
    | nil => rw [hl] at hc; simp at hc
    | cons a r =>
      rw [hl] at hc
      simp at hc
      rw [hc]
      exact List.mem_cons_self _ _
  obtain ⟨u, hu, hu2⟩ := List.mem_filterMap.mp hmem
  have hul : u ∈ l := List.mem_of_mem_filter hu
  exact h u hul (by rw [hu2])

/-- C4: for every input song sequence with well-formed images, the derived
artist list contains each canonical id at most once, lists artists in
first-appearance order of their canonical id across the concatenated song
credits, records for each artist the first display name seen and the first
non-null song image seen, and the display names Taylor Swift and
taylor-with-extra-spaces swift collapse to one canonical id. -/
theorem c4_artist_derivation (songs : List Song)
    (himg : ∀ s ∈ songs, s.image ≠ some "") :
    ((deriveArtists songs).map (fun a => canonicalId a.name)).Nodup ∧
    (deriveArtists songs).map (fun a => canonicalId a.name) =
      firstSeenOrder (creditTriples songs) ∧
    (∀ a ∈ deriveArtists songs,
      specDisp (creditTriples songs) (canonicalId a.name) = some a.name) ∧
    (∀ a ∈ deriveArtists songs,
      a.image_url = specImg (creditTriples songs) (canonicalId a.name)) ∧
    canonicalId "Taylor Swift" = canonicalId "taylor   swift" := by
  have himgT : ∀ t ∈ creditTriples songs, t.2.2 ≠ some "" := creditTriples_img songs himg
  have hwf : ∀ t ∈ creditTriples songs,
      t.1 = toLowerStr t.2.1 ∧ normalizeArtistName t.2.1 = t.2.1 := by
    intro t ht
    obtain ⟨h1, h2, _⟩ := creditTriples_wf songs t ht
    exact ⟨h1, h2⟩
  have hstate : deriveState songs = specEntries (creditTriples songs) :=
    deriveState_eq_specEntries songs himgT
  have hform : deriveArtists songs =
      (dedupFirst ((creditTriples songs).map (fun u => u.1))).map
        (fun n => { name := (specDisp (creditTriples songs) n).getD "",
                    image_url := jsOrO (specImg (creditTriples songs) n) none }) := by
    unfold deriveArtists
    rw [hstate]
    unfold specEntries
    rw [List.map_map]
    apply List.map_congr_left
    intro n _
    rfl
  have hmap_canon : (deriveArtists songs).map (fun a => canonicalId a.name) =
      dedupFirst ((creditTriples songs).map (fun u => u.1)) := by
    rw [hform, List.map_map]
    have h1 : List.map ((fun a => canonicalId a.name) ∘
        (fun n => ({ name := (specDisp (creditTriples songs) n).getD "",
                     image_url := jsOrO (specImg (creditTriples songs) n) none } : TopArtist)))
        (dedupFirst ((creditTriples songs).map (fun u => u.1))) =
      List.map id (dedupFirst ((creditTriples songs).map (fun u => u.1))) := by
      apply List.map_congr_left
      intro n hn
      obtain ⟨d, hd, hcd⟩ := specEntries_entry_canon (creditTriples songs) hwf n
        ((dedupFirst_mem _ _).mp hn)
      simp only [Function.comp_apply, id]
      show canonicalId ((specDisp (creditTriples songs) n).getD "") = n
      rw [hd]
      exact hcd
    rw [h1, List.map_id]
  refine ⟨?_, ?_, ?_, ?_, by decide⟩
  · rw [hmap_canon]
    exact dedupFirst_nodup _
  · rw [hmap_canon]
    rfl
  · intro a ha
    rw [hform] at ha
    obtain ⟨n, hn, hna⟩ := List.mem_map.mp ha
    obtain ⟨d, hd, hcd⟩ := specEntries_entry_canon (creditTriples songs) hwf n
      ((dedupFirst_mem _ _).mp hn)
    rw [← hna]
    show specDisp (creditTriples songs)
        (canonicalId ((specDisp (creditTriples songs) n).getD "")) =
      some ((specDisp (creditTriples songs) n).getD "")
    rw [hd]
    show specDisp (creditTriples songs) (canonicalId d) = some d
    rw [hcd]
    exact hd
  · intro a ha
    rw [hform] at ha
    obtain ⟨n, hn, hna⟩ := List.mem_map.mp ha
    obtain ⟨d, hd, hcd⟩ := specEntries_entry_canon (creditTriples songs) hwf n
      ((dedupFirst_mem _ _).mp hn)
    rw [← hna]
    show jsOrO (specImg (creditTriples songs) n) none =
      specImg (creditTriples songs)
        (canonicalId ((specDisp (creditTriples songs) n).getD ""))
    rw [hd]
    show jsOrO (specImg (creditTriples songs) n) none =
      specImg (creditTriples songs) (canonicalId d)
    rw [hcd]
    have hne := specImg_ne_empty (creditTriples songs) himgT n
    cases hx : specImg (creditTriples songs) n with
    | none => rfl
    | some x =>
      have hxne : x ≠ "" := fun h => hne (by rw [hx, h])
      simp [jsOrO, hxne]

/-- C4 witness: the derivation properties instantiated at a one-song input
whose credit names two artists, discharging the image hypothesis by
evaluation. -/
theorem c4_witness :
    (∀ s ∈ [scenarioSong1], s.image ≠ some "") ∧
    ((deriveArtists [scenarioSong1]).map (fun a => canonicalId a.name)).Nodup ∧
    (deriveArtists [scenarioSong1]).map (fun a => canonicalId a.name) =
      firstSeenOrder (creditTriples [scenarioSong1]) :=
  ⟨by decide,
    (c4_artist_derivation [scenarioSong1] (by decide)).1,
    (c4_artist_derivation [scenarioSong1] (by decide)).2.1⟩
